import Mathlib

/-!
Shallow embedding of `upnprd.c`, a UPnP/SSDP relay daemon, together with
proofs about its device cache, SSDP message parser, response formatter,
send queue (event-loop variant) and error handling.

Datagram payloads are modelled as `List Char` (the C code treats the
receive buffer as a NUL-terminated byte string).  Machine integers
(`time_t`, socket addresses) are modelled as `Nat`.
-/

set_option maxRecDepth 40000

/-- The NUL byte used by the C string functions as a terminator. -/
def nulChar : Char := '\x00'

/-- `chars s` is the byte view of a string literal. -/
def chars (s : String) : List Char := s.toList

/-- ASCII `tolower` on the code point, as used by `strcasestr`/`strcasecmp`. -/
def lowerNat (c : Char) : Nat :=
  if 65 ≤ c.toNat ∧ c.toNat ≤ 90 then c.toNat + 32 else c.toNat

/-- Case-insensitive prefix test: the C `strncasecmp (pat, buf, |pat|) == 0`. -/
def isPrefixCI : List Char → List Char → Bool
  | [], _ => true
  | _ :: _, [] => false
  | p :: ps, b :: bs => (lowerNat p == lowerNat b) && isPrefixCI ps bs

/-- Case-sensitive prefix test: the C `strncmp (pat, buf, |pat|) == 0`. -/
def isPrefixCS : List Char → List Char → Bool
  | [], _ => true
  | _ :: _, [] => false
  | p :: ps, b :: bs => (p == b) && isPrefixCS ps bs

/-- Index of the first case-insensitive occurrence of `pat` in `buf`:
the C `strcasestr (buf, pat)`, returning an offset instead of a pointer. -/
def strcasestrIdx (buf pat : List Char) : Option Nat :=
  if isPrefixCI pat buf then some 0
  else
    match buf with
    | [] => none
    | _ :: rest => (strcasestrIdx rest pat).map (· + 1)

/-- The C `strchr (s, c)` for `c ≠ '\0'`: index of the first occurrence of
`c`, scanning up to (and not past) the first NUL byte. -/
def cstrFind (c : Char) : List Char → Option Nat
  | [] => none
  | x :: rest =>
    if x == c then some 0
    else if x == nulChar then none
    else (cstrFind c rest).map (· + 1)

/-- `strchr` from byte offset `start` of the buffer, as used by the header
truncation loop of `parse_notify_message`. -/
def strchrFrom (buf : List Char) (start : Nat) (c : Char) : Option Nat :=
  (cstrFind c (buf.drop start)).map (· + start)

/-! ### The SSDP parser (`parse_notify_message`, lines 314-353)

`parse_headers` in the C source is the constant array
`{ "\nlocation: ", "\nnt: ", "\nusn: " }`; header values are located with
`strcasestr`, the service type falling back to `"\nST: "`, and each value
is then truncated in place at its first carriage return. -/

def patLoc : List Char := chars "\nlocation: "
def patNt : List Char := chars "\nnt: "
def patUsn : List Char := chars "\nusn: "
def patSt : List Char := chars "\nST: "
def patNts : List Char := chars "NTS: ssdp:"

/-- Offset of the LOCATION value (`headers[LOCATION]` before truncation). -/
def headerPosLoc (buf : List Char) : Option Nat :=
  (strcasestrIdx buf patLoc).map (· + patLoc.length)

/-- Offset of the service-type value: `NT` if present, else `ST`
(`headers[ST]` before truncation). -/
def headerPosSt (buf : List Char) : Option Nat :=
  match strcasestrIdx buf patNt with
  | some p => some (p + patNt.length)
  | none => (strcasestrIdx buf patSt).map (· + patSt.length)

/-- Offset of the USN value (`headers[USN]` before truncation). -/
def headerPosUsn (buf : List Char) : Option Nat :=
  (strcasestrIdx buf patUsn).map (· + patUsn.length)

/-- Liveness of a NOTIFY message: byebye iff the first case-insensitive
occurrence of `"NTS: ssdp:"` is followed by the literal `"byebye"`
(`strncmp` is case-sensitive).  Defaults to alive. -/
def isByebye (buf : List Char) : Bool :=
  match strcasestrIdx buf patNts with
  | some p => isPrefixCS (chars "byebye") (buf.drop (p + patNts.length))
  | none => false

/-- One in-place truncation step: `strchr (headers[i], '\r')` followed by
writing a NUL there (`*nullme = 0`).  A missing header is the constant
`""`, on which `strchr` finds nothing. -/
def truncAt (buf : List Char) (pos : Option Nat) : List Char :=
  match pos with
  | none => buf
  | some p =>
    match strchrFrom buf p '\r' with
    | some j => buf.set j nulChar
    | none => buf

/-- Reading `headers[i]` after the truncation loop: the C string starting
at the header offset, i.e. everything up to the first NUL. -/
def valueAt (buf : List Char) (pos : Option Nat) : List Char :=
  match pos with
  | none => []
  | some p => (buf.drop p).takeWhile (fun c => c != nulChar)

/-- The parsed form of a NOTIFY / M-SEARCH-response datagram. -/
structure Parsed where
  is_alive : Bool
  location : List Char
  st : List Char
  usn : List Char
deriving DecidableEq, Repr

/-- The parsing phase of `parse_notify_message`: liveness detection, the
three header searches on the pristine buffer, then the three in-place
truncations (in array order LOCATION, ST, USN), then the values. -/
def parse_notify_message (buffer : List Char) : Parsed :=
  let alive := !isByebye buffer
  let hloc := headerPosLoc buffer
  let hst := headerPosSt buffer
  let husn := headerPosUsn buffer
  let b1 := truncAt buffer hloc
  let b2 := truncAt b1 hst
  let b3 := truncAt b2 husn
  { is_alive := alive
    location := valueAt b3 hloc
    st := valueAt b3 hst
    usn := valueAt b3 husn }

/-! ### The device cache (lines 156-311) -/

/-- One cached device record (`struct device`); the intrusive list link is
replaced by the position in a `List`. -/
structure Device where
  last_seen : Nat
  addr : Nat
  location : List Char
  st : List Char
  usn : List Char
deriving DecidableEq, Repr

/-- `find_device_by_usn`: first list entry whose `usn` compares equal. -/
def find_device_by_usn : List Device → List Char → Option Device
  | [], _ => none
  | d :: rest, usn => if d.usn = usn then some d else find_device_by_usn rest usn

/-- `store_device`: append at the tail of the list. -/
def store_device (cache : List Device) (d : Device) : List Device :=
  cache ++ [d]

/-- `remove_device` applied to the device found by `find_device_by_usn`:
unlink the first entry with the given `usn`. -/
def remove_device : List Device → List Char → List Device
  | [], _ => []
  | d :: rest, usn => if d.usn = usn then rest else d :: remove_device rest usn

/-- `time (&device->last_seen)` on the device found by
`find_device_by_usn`: refresh the first entry with the given `usn`. -/
def refresh_last_seen (now : Nat) : List Device → List Char → List Device
  | [], _ => []
  | d :: rest, usn =>
    if d.usn = usn then { d with last_seen := now } :: rest
    else d :: refresh_last_seen now rest usn

/-- `remove_outdated_devices`: drop every record whose `last_seen` is more
than 12 hours (43200 seconds) in the past. -/
def remove_outdated_devices (now : Nat) : List Device → List Device
  | [] => []
  | d :: rest =>
    if d.last_seen + 12 * 3600 < now then remove_outdated_devices now rest
    else d :: remove_outdated_devices now rest

/-- Number of cache records carrying a given `usn`. -/
def countUsn (cache : List Device) (usn : List Char) : Nat :=
  (cache.filter (fun d => d.usn = usn)).length

/-- The cache-update phase of `parse_notify_message` (lines 359-410):
known+alive refreshes the timestamp, known+byebye removes the record
unless compiled with `IGNORE_DOWN_MESSAGES` (`ignoreDown`), unknown+alive
stores a new record, unknown+byebye is a no-op. -/
def updateCache (ignoreDown : Bool) (now addr : Nat) (p : Parsed)
    (cache : List Device) : List Device :=
  match find_device_by_usn cache p.usn with
  | some _ =>
    if p.is_alive then refresh_last_seen now cache p.usn
    else if ignoreDown then cache
    else remove_device cache p.usn
  | none =>
    if p.is_alive then
      store_device cache ⟨now, addr, p.location, p.st, p.usn⟩
    else cache

/-- Full processing of one NOTIFY datagram: parse, then update the cache. -/
def process_notify (ignoreDown : Bool) (cache : List Device)
    (buffer : List Char) (addr now : Nat) : List Device :=
  updateCache ignoreDown now addr (parse_notify_message buffer) cache

/-! ### Response formatting and dispatch (lines 520-546, 615-622) -/

/-- The `snprintf` format of `_send_cache_to_real`, applied to one record. -/
def format_response (d : Device) : List Char :=
  chars "HTTP/1.1 200 OK\r\nLOCATION: " ++ d.location ++
  chars "\r\nSERVER: UPnP Cache\r\nCACHE-CONTROL: max-age=1800\r\nEXT:\r\nST: " ++ d.st ++
  chars "\r\nUSN: " ++ d.usn ++
  chars "\r\n\r\n"

/-- The response pass of `_send_cache_to_real`: for each cached record not
announced by the querier itself, one datagram addressed to the querier. -/
def send_cache_responses (qaddr : Nat) : List Device → List (Nat × List Char)
  | [] => []
  | d :: rest =>
    if d.addr ≠ qaddr then (qaddr, format_response d) :: send_cache_responses qaddr rest
    else send_cache_responses qaddr rest

/-- The datagram classification of `main` (lines 615-622). -/
inductive MsgClass
  | notify
  | msearch
  | other
deriving DecidableEq, Repr

/-- `strncmp` dispatch in the receive loop: `NOTIFY ` or `HTTP/1.1 200`
goes to the parser, `M-SEARCH ` to the cache responder. -/
def classify (buf : List Char) : MsgClass :=
  if isPrefixCS (chars "NOTIFY ") buf then MsgClass.notify
  else if isPrefixCS (chars "HTTP/1.1 200") buf then MsgClass.notify
  else if isPrefixCS (chars "M-SEARCH ") buf then MsgClass.msearch
  else MsgClass.other

/-! ### The event-loop send queue (lines 83-152, compiled without THREADS)

`sendto_queue` appends at the tail of the singly linked queue.
`sendto_send` walks the queue once per `select` wake-up: an entry whose
socket is writable first gets its egress interface set (when one was
requested), then is sent with `MSG_DONTWAIT`.  A would-block result
clears the socket from the writable set (so every later entry on the
same socket is skipped this pass) and keeps the entry; any other
result - success, `setsockopt` failure, or a non-transient `sendto`
failure - unlinks exactly that entry. -/

/-- Result of one `sendto` attempt. -/
inductive SendRes
  | sent
  | wouldBlock
  | failed
deriving DecidableEq, Repr

/-- One `struct send_queue_entry`; `tag` is an identity used to state
no-duplication properties. -/
structure QEntry where
  fd : Nat
  mcastSet : Bool
  dest : Nat
  payload : List Char
  tag : Nat
deriving DecidableEq, Repr

/-- Environment outcome of attempting one entry: whether
`setsockopt (IP_MULTICAST_IF)` succeeds, and what `sendto` returns. -/
structure Outcome where
  sockoptOk : Bool
  send : SendRes
deriving DecidableEq, Repr

/-- `sendto_queue`: append one entry at the tail. -/
def sendto_queue (q : List QEntry) (e : QEntry) : List QEntry :=
  q ++ [e]

/-- The C keep condition: the egress interface was set successfully (or
none was requested) and `sendto` failed with `EAGAIN`/`EWOULDBLOCK`. -/
def attemptKept (oracle : QEntry → Outcome) (e : QEntry) : Bool :=
  (!e.mcastSet || (oracle e).sockoptOk) && ((oracle e).send == SendRes.wouldBlock)

/-- The entry was actually transmitted: the egress phase succeeded and
`sendto` returned success. -/
def attemptSent (oracle : QEntry → Outcome) (e : QEntry) : Bool :=
  (!e.mcastSet || (oracle e).sockoptOk) && ((oracle e).send == SendRes.sent)

/-- One drain pass of `sendto_send` over the queue, given the writable
set `w` (the `writefds` after `select`) and the attempt outcomes.
Returns the surviving queue and the list of successfully transmitted
entries, in order. -/
def sendto_send (oracle : QEntry → Outcome) :
    List QEntry → (Nat → Bool) → List QEntry × List QEntry
  | [], _ => ([], [])
  | e :: rest, w =>
    if w e.fd then
      if attemptKept oracle e then
        let r := sendto_send oracle rest (fun f => if f == e.fd then false else w f)
        (e :: r.1, r.2)
      else if attemptSent oracle e then
        let r := sendto_send oracle rest w
        (r.1, e :: r.2)
      else
        sendto_send oracle rest w
    else
      let r := sendto_send oracle rest w
      (e :: r.1, r.2)

/-- A sequence of drain passes, each with its own outcomes and writable
set; returns the final queue and all transmissions in order. -/
def drainPasses :
    List ((QEntry → Outcome) × (Nat → Bool)) → List QEntry → List QEntry × List QEntry
  | [], q => (q, [])
  | s :: ps, q =>
    let r1 := sendto_send s.1 q s.2
    let r2 := drainPasses ps r1.1
    (r2.1, r1.2 ++ r2.2)

/-- Number of queue entries carrying a given identity tag. -/
def countTag (l : List QEntry) (t : Nat) : Nat :=
  (l.filter (fun e => e.tag = t)).length

/-! ### Error handling and exit statuses (lines 191-218, 448-485, 606-611)

Fallible system calls are modelled by injecting their success or failure
as a boolean; a path that calls `exit (n)` is `Except.error n`. -/

/-- `create_socket`: `socket` failure exits with 2, `SO_REUSEADDR`
failure with 3. -/
def create_socket (socketOk sockoptOk : Bool) : Except Nat Unit :=
  if !socketOk then Except.error 2
  else if !sockoptOk then Except.error 3
  else Except.ok ()

/-- `setup_multicast_listener`: socket construction as above, `bind`
failure exits with 4; a multicast-group join failure on an interface is
retried once and then skipped, never fatal (`joins` records them). -/
def setup_multicast_listener (socketOk sockoptOk bindOk : Bool)
    (joins : List Bool) : Except Nat Unit :=
  match create_socket socketOk sockoptOk with
  | Except.error e => Except.error e
  | Except.ok _ =>
    if !bindOk then Except.error 4
    else
      let _ := joins
      Except.ok ()

/-- `_send_m_search_multicast_real` compiled with THREADS: per interface,
an `IP_MULTICAST_IF` `setsockopt` failure calls `exit (7)`; a `sendto`
failure is only logged.  Each pair is (setsockopt ok?, sendto ok?). -/
def send_m_search_multicast_threaded : List (Bool × Bool) → Except Nat Unit
  | [] => Except.ok ()
  | i :: rest =>
    if i.1 then send_m_search_multicast_threaded rest else Except.error 7

/-- `_send_m_search_multicast_real` compiled without THREADS: every
interface's query is only appended to the send queue; nothing can exit.
Returns the queued (interface, payload) pairs. -/
def send_m_search_multicast_queued (ifaces : List Nat) : List (Nat × List Char) :=
  ifaces.map (fun i => (i, chars "M-SEARCH * HTTP/1.1\r\nHOST: 239.255.255.250:1900\r\nMAN: \"ssdp:discover\"\r\nMX: 5\r\nST: ssdp:all\r\n\r\n"))

/-- The response loop of `_send_cache_to_real` compiled with THREADS: a
`sendto` failure for one record is only logged, never fatal. -/
def send_cache_to_threaded (sendResults : List Bool) : Except Nat Unit :=
  let _ := sendResults
  Except.ok ()

/-- Result of one `recvfrom` call. -/
inductive RecvRes
  | data (nbytes : Nat)
  | eagain
  | fatal
deriving DecidableEq, Repr

/-- The receive step of `main`: `EAGAIN`/`EWOULDBLOCK` re-arms the loop,
any other failure exits with 7. -/
def recv_step : RecvRes → Except Nat (Option Nat)
  | RecvRes.data n => Except.ok (some n)
  | RecvRes.eagain => Except.ok none
  | RecvRes.fatal => Except.error 7

/-! ### The receive buffer bound (lines 184, 606-612) -/

/-- `char buffer[2048]` in the C source. -/
def recv_buffer_size : Nat := 2048

/-- `recvfrom (fd, buffer, sizeof (buffer), ...)` returns at most the
buffer size. -/
def recv_length_ok (nbytes : Nat) : Prop := nbytes ≤ recv_buffer_size

/-- The index written by `buffer[nbytes] = 0` after a successful receive. -/
def nul_write_index (nbytes : Nat) : Nat := nbytes

/-! ### Auxiliary predicates used to reason about `strcasestrIdx` -/

/-- `mismatchCI p c`: within the overlap of `p` and `c` some position has
case-insensitively different characters, so `p` cannot be a prefix of
`c ++ anything`. -/
def mismatchCI : List Char → List Char → Bool
  | p :: ps, b :: bs => (lowerNat p != lowerNat b) || mismatchCI ps bs
  | _, _ => false

/-- `segBlocks pat x`: no occurrence of `pat` can start inside `x`,
whatever follows `x`: every suffix of `x` already exhibits a
case-insensitive mismatch with `pat`. -/
def segBlocks (pat : List Char) : List Char → Bool
  | [] => true
  | c :: rest => mismatchCI pat (c :: rest) && segBlocks pat rest

/-- The lines of a buffer, split at every line feed. -/
def linesOf : List Char → List (List Char)
  | [] => [[]]
  | c :: rest =>
    if c = '\n' then [] :: linesOf rest
    else
      match linesOf rest with
      | [] => [[c]]
      | l :: ls => (c :: l) :: ls

/-! ### Segments of the formatted response, for the round-trip proof -/

def fmtA0 : List Char := chars "HTTP/1.1 200 OK\r"
def fmtAL : List Char := chars "\nLOCATION: "
def fmtC1 : List Char := chars "\r\nSERVER: UPnP Cache\r\nCACHE-CONTROL: max-age=1800\r\nEXT:\r\nST: "
def fmtC2 : List Char := chars "\r\nUSN: "
def fmtC3 : List Char := chars "\r\n\r\n"

/-! ### Concrete datagrams used as counterexample inputs -/

/-- An alive NOTIFY announcement with no USN header at all. -/
def cexNoUsnBuf : List Char := chars "NOTIFY * HTTP/1.1\r\nLOCATION: http://h/\r\nNT: x\r\n\r\n"

/-- A NOTIFY announcement in which the text `NTS: ssdp:byebye` occurs
only inside the value of the unrelated header `X-A`; no line of the
datagram starts with an `NTS` header. -/
def cexNtsBuf : List Char := chars "NOTIFY * HTTP/1.1\r\nX-A: zzNTS: ssdp:byebye\r\nUSN: u\r\n\r\n"

/-! ### Sequences of alive announcements, for the keep-alive property -/

/-- The data carried by one alive announcement: the location and
service-type headers, the sender address, and the arrival time. -/
structure Ann where
  loc : List Char
  st : List Char
  addr : Nat
  t : Nat
deriving DecidableEq, Repr

/-- Process a sequence of alive announcements for a fixed `id`, each one
going through the cache-update phase at its own arrival time. -/
def processAliveSeq (ig : Bool) (id : List Char) : List Ann → List Device → List Device
  | [], cache => cache
  | a :: rest, cache =>
    processAliveSeq ig id rest (updateCache ig a.t a.addr ⟨true, a.loc, a.st, id⟩ cache)

example : classify (chars "NOTIFY * HTTP/1.1\r\n\r\n") = MsgClass.notify := by decide
example : classify (chars "M-SEARCH * HTTP/1.1\r\n\r\n") = MsgClass.msearch := by decide
example :
    parse_notify_message (chars "NOTIFY * HTTP/1.1\r\nNT: urn:foo\r\nUSN: uuid:abc::urn:foo\r\nLOCATION: http://10.0.0.5:80/desc.xml\r\nNTS: ssdp:alive\r\n\r\n")
      = ⟨true, chars "http://10.0.0.5:80/desc.xml", chars "urn:foo", chars "uuid:abc::urn:foo"⟩ := by
  decide

/-! ## Lemmas about the case-insensitive search -/

theorem lowerNat_eq_of_lt {c : Char} {t : Nat} (h : lowerNat c = t) (ht : t < 97) :
    c.toNat = t := by
  unfold lowerNat at h
  split at h
  · omega
  · exact h

theorem isPrefixCI_append {p c : List Char} (rest : List Char)
    (h : isPrefixCI p c = true) : isPrefixCI p (c ++ rest) = true := by
  induction p generalizing c with
  | nil => rfl
  | cons x xs ih =>
    cases c with
    | nil => simp [isPrefixCI] at h
    | cons y ys =>
      simp only [List.cons_append, isPrefixCI, Bool.and_eq_true] at h ⊢
      exact ⟨h.1, ih h.2⟩

theorem isPrefixCS_append {p c : List Char} (rest : List Char)
    (h : isPrefixCS p c = true) : isPrefixCS p (c ++ rest) = true := by
  induction p generalizing c with
  | nil => rfl
  | cons x xs ih =>
    cases c with
    | nil => simp [isPrefixCS] at h
    | cons y ys =>
      simp only [List.cons_append, isPrefixCS, Bool.and_eq_true] at h ⊢
      exact ⟨h.1, ih h.2⟩

theorem mismatchCI_append {p c : List Char} (rest : List Char)
    (h : mismatchCI p c = true) : mismatchCI p (c ++ rest) = true := by
  induction p generalizing c with
  | nil => simp [mismatchCI] at h
  | cons x xs ih =>
    cases c with
    | nil => simp [mismatchCI] at h
    | cons y ys =>
      simp only [List.cons_append, mismatchCI, Bool.or_eq_true] at h ⊢
      rcases h with h | h
      · exact Or.inl h
      · exact Or.inr (ih h)

theorem isPrefixCI_eq_false_of_mismatch {p c : List Char}
    (h : mismatchCI p c = true) : isPrefixCI p c = false := by
  induction p generalizing c with
  | nil => simp [mismatchCI] at h
  | cons x xs ih =>
    cases c with
    | nil => simp [mismatchCI] at h
    | cons y ys =>
      simp only [mismatchCI, Bool.or_eq_true, bne_iff_ne, ne_eq] at h
      simp only [isPrefixCI, Bool.and_eq_false_iff]
      rcases h with h | h
      · exact Or.inl (by simpa using h)
      · exact Or.inr (ih h)

theorem strIdx_of_isPrefix {buf pat : List Char}
    (h : isPrefixCI pat buf = true) : strcasestrIdx buf pat = some 0 := by
  unfold strcasestrIdx
  simp [h]

theorem strIdx_cons_of_not_prefix {c : Char} {rest pat : List Char}
    (h : isPrefixCI pat (c :: rest) = false) :
    strcasestrIdx (c :: rest) pat = (strcasestrIdx rest pat).map (· + 1) := by
  conv_lhs => unfold strcasestrIdx
  simp [h]

theorem segBlocks_skip {pat : List Char} :
    ∀ (x buf : List Char), segBlocks pat x = true →
      strcasestrIdx (x ++ buf) pat = (strcasestrIdx buf pat).map (· + x.length) := by
  intro x
  induction x with
  | nil =>
    intro buf _
    cases h : strcasestrIdx buf pat <;> simp [h]
  | cons c xs ih =>
    intro buf hseg
    simp only [segBlocks, Bool.and_eq_true] at hseg
    have hpre : isPrefixCI pat (c :: (xs ++ buf)) = false := by
      have := isPrefixCI_eq_false_of_mismatch (mismatchCI_append buf hseg.1)
      simpa using this
    rw [List.cons_append, strIdx_cons_of_not_prefix hpre, ih buf hseg.2]
    cases strcasestrIdx buf pat with
    | none => rfl
    | some k =>
      simp only [Option.map_some', List.length_cons]
      exact congrArg some (by omega)

theorem segBlocks_of_head_ne {p : Char} {ps v : List Char}
    (h : ∀ c ∈ v, lowerNat c ≠ lowerNat p) : segBlocks (p :: ps) v = true := by
  induction v with
  | nil => rfl
  | cons c cs ih =>
    simp only [segBlocks, Bool.and_eq_true]
    constructor
    · simp only [mismatchCI, Bool.or_eq_true, bne_iff_ne, ne_eq]
      exact Or.inl fun hc => h c (List.mem_cons_self c cs) hc.symm
    · exact ih fun c hc => h c (List.mem_cons_of_mem _ hc)

theorem segBlocks_append {pat x y : List Char}
    (hx : segBlocks pat x = true) (hy : segBlocks pat y = true) :
    segBlocks pat (x ++ y) = true := by
  induction x with
  | nil => simpa using hy
  | cons c xs ih =>
    simp only [segBlocks, Bool.and_eq_true] at hx
    simp only [List.cons_append, segBlocks, Bool.and_eq_true]
    exact ⟨mismatchCI_append y hx.1, ih hx.2⟩

theorem strIdx_isPrefix :
    ∀ (buf pat : List Char) (p : Nat), strcasestrIdx buf pat = some p →
      isPrefixCI pat (buf.drop p) = true := by
  intro buf
  induction buf with
  | nil =>
    intro pat p h
    unfold strcasestrIdx at h
    split at h
    · rename_i hpre
      injection h with h'
      subst h'
      simpa using hpre
    · simp at h
  | cons c rest ih =>
    intro pat p h
    unfold strcasestrIdx at h
    split at h
    · rename_i hpre
      injection h with h'
      subst h'
      simpa using hpre
    · simp only [Option.map_eq_some'] at h
      obtain ⟨q, hq, rfl⟩ := h
      simpa using ih pat q hq

/-! ## Lemmas about `strchr`, in-place truncation and value extraction -/

theorem cstrFind_append {c : Char} :
    ∀ (v w : List Char), (∀ x ∈ v, x ≠ c ∧ x ≠ nulChar) →
      cstrFind c (v ++ c :: w) = some v.length := by
  intro v
  induction v with
  | nil =>
    intro w _
    simp [cstrFind]
  | cons x xs ih =>
    intro w hv
    have hx := hv x (List.mem_cons_self x xs)
    have ihh := ih w (fun y hy => hv y (List.mem_cons_of_mem _ hy))
    simp only [List.cons_append, cstrFind, beq_iff_eq]
    rw [if_neg hx.1, if_neg hx.2]
    simp only [List.append_eq] at ihh ⊢
    rw [ihh]
    simp

theorem set_append_right {α : Type} :
    ∀ (x y : List α) (n : Nat) (a : α), (x ++ y).set (x.length + n) a = x ++ y.set n a := by
  intro x
  induction x with
  | nil => intro y n a; simp
  | cons c xs ih =>
    intro y n a
    simp only [List.cons_append, List.length_cons]
    have h1 : xs.length + 1 + n = (xs.length + n) + 1 := by omega
    rw [h1]
    show c :: (xs ++ y).set (xs.length + n) a = c :: (xs ++ y.set n a)
    exact congrArg (c :: ·) (ih y n a)

theorem takeWhile_append_stop {α : Type} (p : α → Bool) :
    ∀ (v : List α) (x : α) (w : List α), (∀ y ∈ v, p y = true) → p x = false →
      (v ++ x :: w).takeWhile p = v := by
  intro v
  induction v with
  | nil =>
    intro x w _ hx
    rw [List.nil_append, List.takeWhile_cons_of_neg (by simp [hx])]
  | cons a as ih =>
    intro x w hv hx
    have ha := hv a (List.mem_cons_self a as)
    rw [List.cons_append, List.takeWhile_cons_of_pos ha,
      ih x w (fun y hy => hv y (List.mem_cons_of_mem _ hy)) hx]

theorem drop_append_left {α : Type} (x y : List α) :
    (x ++ y).drop x.length = y := by
  simp

/-! ## Lemmas about line structure, for the anchoring properties -/

theorem char_eq_of_toNat {c d : Char} (h : c.toNat = d.toNat) : c = d := by
  apply Char.ext
  exact UInt32.ext h

theorem linesOf_head :
    ∀ y : List Char, ∃ ls, linesOf y = (y.takeWhile (fun c => c != '\n')) :: ls := by
  intro y
  induction y with
  | nil => exact ⟨[], rfl⟩
  | cons c r ih =>
    by_cases hc : c = '\n'
    · subst hc
      refine ⟨linesOf r, ?_⟩
      simp [linesOf, List.takeWhile]
    · obtain ⟨ls, hls⟩ := ih
      refine ⟨ls, ?_⟩
      simp only [linesOf, if_neg hc, hls]
      rw [List.takeWhile_cons_of_pos (by simp [hc])]

theorem linesOf_cons_nl (r : List Char) : linesOf ('\n' :: r) = [] :: linesOf r := by
  simp [linesOf]

theorem linesOf_cons_ne {a : Char} (r : List Char) (ha : a ≠ '\n') :
    linesOf (a :: r) =
      match linesOf r with
      | [] => [[a]]
      | l :: ls => (a :: l) :: ls := by
  simp [linesOf, ha]

theorem linesOf_append_nl :
    ∀ (x y : List Char), ∃ pre, pre ≠ [] ∧ linesOf (x ++ '\n' :: y) = pre ++ linesOf y := by
  intro x
  induction x with
  | nil =>
    intro y
    exact ⟨[[]], by simp, by simp [linesOf]⟩
  | cons a xs ih =>
    intro y
    obtain ⟨pre, hne, hpre⟩ := ih y
    by_cases ha : a = '\n'
    · subst ha
      refine ⟨[] :: pre, by simp, ?_⟩
      rw [List.cons_append, linesOf_cons_nl, hpre]
      rfl
    · cases pre with
      | nil => exact absurd rfl hne
      | cons h pre' =>
        refine ⟨(a :: h) :: pre', by simp, ?_⟩
        rw [List.cons_append, linesOf_cons_ne _ ha, hpre]
        rfl

theorem mem_linesOf (x y : List Char) :
    (y.takeWhile (fun c => c != '\n')) ∈ linesOf (x ++ '\n' :: y) := by
  obtain ⟨pre, _, hpre⟩ := linesOf_append_nl x y
  obtain ⟨ls, hls⟩ := linesOf_head y
  rw [hpre, hls]
  simp

theorem prefixCI_takeWhile_nl :
    ∀ (pat y : List Char), (∀ c ∈ pat, lowerNat c ≠ 10) → isPrefixCI pat y = true →
      isPrefixCI pat (y.takeWhile (fun c => c != '\n')) = true := by
  intro pat
  induction pat with
  | nil => intro y _ _; rfl
  | cons p ps ih =>
    intro y hpat h
    cases y with
    | nil => simp [isPrefixCI] at h
    | cons c cs =>
      simp only [isPrefixCI, Bool.and_eq_true, beq_iff_eq] at h
      have hc : c ≠ '\n' := by
        intro hc
        subst hc
        have h10 : lowerNat '\n' = 10 := by decide
        exact hpat p (List.mem_cons_self p ps) (h.1.trans h10)
      rw [List.takeWhile_cons_of_pos (by simp [hc])]
      simp only [isPrefixCI, Bool.and_eq_true, beq_iff_eq]
      exact ⟨h.1, ih cs (fun c hcm => hpat c (List.mem_cons_of_mem _ hcm)) h.2⟩

theorem found_on_line {buf nm : List Char} {p : Nat}
    (hnm : ∀ c ∈ nm, lowerNat c ≠ 10)
    (h : strcasestrIdx buf ('\n' :: nm) = some p) :
    ∃ l ∈ linesOf buf, isPrefixCI nm l = true := by
  have hpre := strIdx_isPrefix buf ('\n' :: nm) p h
  cases hd : buf.drop p with
  | nil => rw [hd] at hpre; simp [isPrefixCI] at hpre
  | cons c y =>
    rw [hd] at hpre
    simp only [isPrefixCI, Bool.and_eq_true, beq_iff_eq] at hpre
    have hc : c = '\n' := by
      have h10 : lowerNat c = 10 := by
        rw [← hpre.1]; decide
      have htn : c.toNat = 10 := lowerNat_eq_of_lt h10 (by omega)
      exact char_eq_of_toNat (by rw [htn]; decide)
    subst hc
    have hbuf : buf = buf.take p ++ '\n' :: y := by
      conv_lhs => rw [← List.take_append_drop p buf]
      rw [hd]
    rw [hbuf]
    exact ⟨_, mem_linesOf _ _, prefixCI_takeWhile_nl nm y hnm hpre.2⟩

/-! ## Lemmas about the device cache -/

theorem find_device_eq_none {u : List Char} :
    ∀ {cache : List Device}, (∀ d ∈ cache, d.usn ≠ u) →
      find_device_by_usn cache u = none := by
  intro cache
  induction cache with
  | nil => intro _; rfl
  | cons d rest ih =>
    intro h
    simp only [find_device_by_usn, if_neg (h d (List.mem_cons_self d rest))]
    exact ih fun x hx => h x (List.mem_cons_of_mem _ hx)

theorem find_device_append_last {u : List Char} {d : Device} :
    ∀ {pre : List Device}, (∀ x ∈ pre, x.usn ≠ u) → d.usn = u →
      find_device_by_usn (pre ++ [d]) u = some d := by
  intro pre
  induction pre with
  | nil =>
    intro _ hd
    simp [find_device_by_usn, hd]
  | cons x xs ih =>
    intro h hd
    simp only [List.cons_append, find_device_by_usn,
      if_neg (h x (List.mem_cons_self x xs))]
    exact ih (fun y hy => h y (List.mem_cons_of_mem _ hy)) hd

theorem refresh_append_last {u : List Char} {d : Device} {now : Nat} :
    ∀ {pre : List Device}, (∀ x ∈ pre, x.usn ≠ u) → d.usn = u →
      refresh_last_seen now (pre ++ [d]) u = pre ++ [{ d with last_seen := now }] := by
  intro pre
  induction pre with
  | nil =>
    intro _ hd
    simp [refresh_last_seen, hd]
  | cons x xs ih =>
    intro h hd
    simp only [List.cons_append, refresh_last_seen,
      if_neg (h x (List.mem_cons_self x xs))]
    simp only [List.append_eq]
    rw [ih (fun y hy => h y (List.mem_cons_of_mem _ hy)) hd]

theorem countUsn_cons (d : Device) (rest : List Device) (u : List Char) :
    countUsn (d :: rest) u = (if d.usn = u then 1 else 0) + countUsn rest u := by
  by_cases h : d.usn = u
  · simp [countUsn, List.filter, h]
    omega
  · simp [countUsn, List.filter, h]

theorem find_device_eq_none_of_countUsn_zero {u : List Char} :
    ∀ {cache : List Device}, countUsn cache u = 0 →
      find_device_by_usn cache u = none := by
  intro cache
  induction cache with
  | nil => intro _; rfl
  | cons d rest ih =>
    intro h
    rw [countUsn_cons] at h
    by_cases hd : d.usn = u
    · rw [if_pos hd] at h; omega
    · rw [if_neg hd] at h
      simp only [find_device_by_usn, if_neg hd]
      exact ih (by omega)

theorem find_remove_eq_none {u : List Char} :
    ∀ {cache : List Device}, countUsn cache u ≤ 1 →
      find_device_by_usn (remove_device cache u) u = none := by
  intro cache
  induction cache with
  | nil => intro _; rfl
  | cons d rest ih =>
    intro h
    rw [countUsn_cons] at h
    by_cases hd : d.usn = u
    · rw [if_pos hd] at h
      simp only [remove_device, if_pos hd]
      exact find_device_eq_none_of_countUsn_zero (by omega)
    · rw [if_neg hd] at h
      simp only [remove_device, if_neg hd, find_device_by_usn, if_neg hd]
      exact ih (by omega)

theorem remove_device_filter_ne {u : List Char} :
    ∀ (cache : List Device),
      (remove_device cache u).filter (fun d => d.usn ≠ u)
        = cache.filter (fun d => d.usn ≠ u) := by
  intro cache
  induction cache with
  | nil => rfl
  | cons d rest ih =>
    by_cases hd : d.usn = u
    · simp only [remove_device, if_pos hd]
      rw [List.filter_cons_of_neg (by simp [hd])]
    · simp only [remove_device, if_neg hd]
      rw [List.filter_cons_of_pos (by simp [hd]), List.filter_cons_of_pos (by simp [hd]), ih]

/-- Unfolding of `updateCache` on an explicit `Parsed` record. -/
theorem updateCache_mk (ig : Bool) (now addr : Nat) (al : Bool) (l s u : List Char)
    (cache : List Device) :
    updateCache ig now addr ⟨al, l, s, u⟩ cache
      = match find_device_by_usn cache u with
        | some _ =>
          if al then refresh_last_seen now cache u
          else if ig then cache else remove_device cache u
        | none =>
          if al then store_device cache ⟨now, addr, l, s, u⟩ else cache := rfl

/-! ## C5: the expiry sweep -/

/-- C5: `remove_outdated_devices now` keeps exactly the records with
`last_seen + 12 h ≥ now` (and keeps them unmodified, in order): a record
aged 12 h 1 s is removed, a record aged 11 h 59 m is retained. -/
theorem expiry_sweep_precise (now : Nat) (cache : List Device) (d : Device) :
    remove_outdated_devices now cache
        = cache.filter (fun x => now ≤ x.last_seen + 12 * 3600)
    ∧ (d.last_seen + (12 * 3600 + 1) = now → remove_outdated_devices now [d] = [])
    ∧ (d.last_seen + (11 * 3600 + 59 * 60) = now →
        remove_outdated_devices now [d] = [d]) := by
  refine ⟨?_, ?_, ?_⟩
  · induction cache with
    | nil => rfl
    | cons x rest ih =>
      by_cases hx : x.last_seen + 12 * 3600 < now
      · simp only [remove_outdated_devices, if_pos hx]
        rw [List.filter_cons_of_neg (by simp only [decide_eq_true_eq]; omega)]
        exact ih
      · simp only [remove_outdated_devices, if_neg hx]
        rw [List.filter_cons_of_pos (by simp only [decide_eq_true_eq]; omega)]
        rw [ih]
  · intro h
    have hlt : d.last_seen + 12 * 3600 < now := by omega
    simp [remove_outdated_devices, hlt]
  · intro h
    have hge : ¬ d.last_seen + 12 * 3600 < now := by omega
    simp [remove_outdated_devices, hge]

/-- Witness for C5 at `now = 100000`: a record last seen at 56799
(12 h 1 s ago) is evicted, one last seen at 56860 (11 h 59 m ago) stays. -/
theorem expiry_sweep_precise_witness :
    remove_outdated_devices 100000 [⟨56799, 0, [], [], []⟩] = []
    ∧ remove_outdated_devices 100000 [⟨56860, 0, [], [], []⟩]
        = [⟨56860, 0, [], [], []⟩] :=
  ⟨(expiry_sweep_precise 100000 [] ⟨56799, 0, [], [], []⟩).2.1 (by decide),
   (expiry_sweep_precise 100000 [] ⟨56860, 0, [], [], []⟩).2.2 (by decide)⟩

/-! ## C4: query responses never reflect a record to its announcer -/

/-- C4: for a query from `qaddr`, the response pass emits exactly one
datagram, addressed to `qaddr`, per cached record whose source address
differs from `qaddr`, and none for records announced by `qaddr` itself. -/
theorem query_response_no_self (qaddr : Nat) (cache : List Device) :
    send_cache_responses qaddr cache
        = (cache.filter (fun d => d.addr ≠ qaddr)).map
            (fun d => (qaddr, format_response d))
    ∧ (send_cache_responses qaddr cache).length
        = (cache.filter (fun d => d.addr ≠ qaddr)).length
    ∧ ∀ r ∈ send_cache_responses qaddr cache, r.1 = qaddr := by
  have hmain : send_cache_responses qaddr cache
      = (cache.filter (fun d => d.addr ≠ qaddr)).map
          (fun d => (qaddr, format_response d)) := by
    induction cache with
    | nil => rfl
    | cons d rest ih =>
      by_cases hd : d.addr = qaddr
      · have hcond : ¬ (d.addr ≠ qaddr) := fun hne => hne hd
        simp only [send_cache_responses, if_neg hcond]
        rw [List.filter_cons_of_neg (by simpa using hd)]
        exact ih
      · simp only [send_cache_responses, if_pos hd]
        rw [List.filter_cons_of_pos (by simpa using hd), List.map_cons, ih]
  refine ⟨hmain, by rw [hmain, List.length_map], ?_⟩
  intro r hr
  rw [hmain] at hr
  obtain ⟨d, _, rfl⟩ := List.mem_map.mp hr
  rfl

/-! ## C10: the NUL terminator index for a full-size datagram -/

/-- C10: `recvfrom` may legitimately return 2048 (a datagram that fills
the buffer), and then `buffer[nbytes] = 0` writes at index 2048 of the
2048-byte buffer - not strictly inside it.  The claimed bound fails at
exactly this input. -/
theorem recv_nul_write_out_of_bounds :
    recv_length_ok 2048
    ∧ nul_write_index 2048 = recv_buffer_size
    ∧ ¬ nul_write_index 2048 < recv_buffer_size
    ∧ ∀ n : Nat, n < recv_buffer_size → nul_write_index n < recv_buffer_size := by
  refine ⟨?_, rfl, ?_, ?_⟩
  · show (2048 : Nat) ≤ 2048
    exact Nat.le_refl 2048
  · show ¬ (2048 : Nat) < 2048
    omega
  · intro n h
    exact h

/-- Witness for C10: the in-bounds conjunct holds at `nbytes = 2047`. -/
theorem recv_nul_write_out_of_bounds_witness :
    nul_write_index 2047 < recv_buffer_size :=
  recv_nul_write_out_of_bounds.2.2.2 2047 (by decide)

/-! ## C9: exit statuses and the send path -/

/-- C9 counterexample: in the THREADS build, a failure of the
`IP_MULTICAST_IF` `setsockopt` on the first interface of the discovery
burst terminates the process with status 7 - the same status as a fatal
receive failure - although it is a send-path failure. -/
theorem send_path_failure_exits :
    send_m_search_multicast_threaded [(false, true)] = Except.error 7
    ∧ recv_step RecvRes.fatal = Except.error 7 :=
  ⟨rfl, rfl⟩

/-- C9 amended: transmitting datagrams never exits in either build, and
the event-loop build's whole send path cannot exit; but the THREADS
discovery burst exits with 7 when setting the egress interface fails.
Construction, option, bind and fatal-receive failures exit with the
distinct statuses 2, 3, 4 and 7. -/
theorem exit_status_discipline (sel : List (Bool × Bool)) (sends joins : List Bool)
    (ifaces : List Nat) (b : Bool) :
    (send_m_search_multicast_threaded sel
        = if (sel.map Prod.fst).all (fun x => x) then Except.ok () else Except.error 7)
    ∧ send_cache_to_threaded sends = Except.ok ()
    ∧ (send_m_search_multicast_queued ifaces).length = ifaces.length
    ∧ create_socket false b = Except.error 2
    ∧ create_socket true false = Except.error 3
    ∧ create_socket true true = Except.ok ()
    ∧ setup_multicast_listener true true false joins = Except.error 4
    ∧ setup_multicast_listener true true true joins = Except.ok ()
    ∧ recv_step RecvRes.eagain = Except.ok none
    ∧ recv_step RecvRes.fatal = Except.error 7 := by
  refine ⟨?_, rfl, by simp [send_m_search_multicast_queued], rfl, rfl, rfl, rfl, rfl,
    rfl, rfl⟩
  induction sel with
  | nil => rfl
  | cons i rest ih =>
    by_cases hi : i.1 = true
    · simp [send_m_search_multicast_threaded, hi, ih]
    · simp [send_m_search_multicast_threaded, hi]

/-! ## C3: byebye processing -/

/-- C3: processing a byebye for a cached `id` removes exactly that record
(and a lookup afterwards finds nothing, given the at-most-one-per-id
invariant), unless `IGNORE_DOWN_MESSAGES` is set, in which case the
byebye is ignored entirely; a byebye for an unknown `id` changes nothing. -/
theorem byebye_removes (ig : Bool) (cache : List Device) (l s id : List Char)
    (addr now : Nat) :
    (ig = true → updateCache ig now addr ⟨false, l, s, id⟩ cache = cache)
    ∧ (find_device_by_usn cache id = none →
        updateCache ig now addr ⟨false, l, s, id⟩ cache = cache)
    ∧ (ig = false → find_device_by_usn cache id ≠ none →
        updateCache ig now addr ⟨false, l, s, id⟩ cache = remove_device cache id
        ∧ (countUsn cache id ≤ 1 →
            find_device_by_usn (remove_device cache id) id = none)
        ∧ (remove_device cache id).filter (fun d => d.usn ≠ id)
            = cache.filter (fun d => d.usn ≠ id)) := by
  cases hf : find_device_by_usn cache id with
  | none =>
    have hupd : updateCache ig now addr ⟨false, l, s, id⟩ cache = cache := by
      simp [updateCache_mk, hf]
    exact ⟨fun _ => hupd, fun _ => hupd, fun _ hne => absurd rfl hne⟩
  | some d =>
    refine ⟨?_, ?_, ?_⟩
    · intro hig
      subst hig
      simp [updateCache_mk, hf]
    · intro hnone
      simp at hnone
    · intro hig _
      subst hig
      refine ⟨by simp [updateCache_mk, hf], fun hc => find_remove_eq_none hc,
        remove_device_filter_ne cache⟩

/-- Witness for C3: a byebye removes the only record with the given id
(and lookup then fails), leaves an unrelated cache unchanged, and is
ignored entirely when departure handling is disabled. -/
theorem byebye_removes_witness :
    updateCache false 5 9 ⟨false, [], [], chars "u"⟩ [⟨1, 2, [], [], chars "u"⟩] = []
    ∧ find_device_by_usn
        (remove_device [⟨1, 2, [], [], chars "u"⟩] (chars "u")) (chars "u") = none
    ∧ updateCache false 5 9 ⟨false, [], [], chars "w"⟩ [⟨1, 2, [], [], chars "u"⟩]
        = [⟨1, 2, [], [], chars "u"⟩]
    ∧ updateCache true 5 9 ⟨false, [], [], chars "u"⟩ [⟨1, 2, [], [], chars "u"⟩]
        = [⟨1, 2, [], [], chars "u"⟩] := by
  have h := byebye_removes false [⟨1, 2, [], [], chars "u"⟩] [] [] (chars "u") 9 5
  have hr := h.2.2 rfl (by decide)
  refine ⟨?_, ?_, ?_, ?_⟩
  · rw [hr.1]
    decide
  · exact hr.2.1 (by decide)
  · exact (byebye_removes false [⟨1, 2, [], [], chars "u"⟩] [] [] (chars "w") 9 5).2.1
      (by decide)
  · exact (byebye_removes true [⟨1, 2, [], [], chars "u"⟩] [] [] (chars "u") 9 5).1 rfl

/-! ## C1: announcements with a missing or empty USN -/

/-- C1 counterexample: an alive NOTIFY with no USN header does not leave
the cache unchanged - the parser yields the empty id and the update phase
stores a record under it. -/
theorem empty_usn_cached_counterexample :
    (parse_notify_message cexNoUsnBuf).usn = []
    ∧ (parse_notify_message cexNoUsnBuf).is_alive = true
    ∧ process_notify false [] cexNoUsnBuf 5 100
        = [⟨100, 5, chars "http://h/", chars "x", []⟩]
    ∧ process_notify false [] cexNoUsnBuf 5 100 ≠ [] := by
  refine ⟨by decide, by decide, by decide, by decide⟩

/-- C1 amended: an alive announcement whose USN header is missing or has
an empty value is not discarded; the empty string is handled like any
other id - a record with empty id is appended when no such record
exists, and an existing empty-id record has its `last_seen` refreshed. -/
theorem empty_usn_upserts (ig : Bool) (cache : List Device) (buf : List Char)
    (addr now : Nat)
    (hu : (parse_notify_message buf).usn = [])
    (ha : (parse_notify_message buf).is_alive = true) :
    (find_device_by_usn cache [] = none →
      process_notify ig cache buf addr now
        = cache ++ [⟨now, addr, (parse_notify_message buf).location,
            (parse_notify_message buf).st, []⟩])
    ∧ (find_device_by_usn cache [] ≠ none →
      process_notify ig cache buf addr now = refresh_last_seen now cache []) := by
  constructor
  · intro hf
    unfold process_notify updateCache
    rw [hu, hf, ha]
    simp [store_device]
  · intro hf
    cases hfind : find_device_by_usn cache [] with
    | none => exact absurd hfind hf
    | some d =>
      unfold process_notify updateCache
      rw [hu, hfind, ha]
      simp

/-- Witness for C1 (amended): on the empty cache, the USN-less alive
announcement appends one record carrying the empty id. -/
theorem empty_usn_upserts_witness :
    process_notify true [] cexNoUsnBuf 5 100
      = [⟨100, 5, (parse_notify_message cexNoUsnBuf).location,
          (parse_notify_message cexNoUsnBuf).st, []⟩] :=
  (empty_usn_upserts true [] cexNoUsnBuf 5 100 (by decide) (by decide)).1 rfl

/-! ## C2: idempotent keep-alive with first-seen-wins fields -/

theorem countUsn_append (x y : List Device) (u : List Char) :
    countUsn (x ++ y) u = countUsn x u + countUsn y u := by
  simp [countUsn, List.filter_append]

theorem countUsn_eq_zero {cache : List Device} {u : List Char}
    (h : ∀ d ∈ cache, d.usn ≠ u) : countUsn cache u = 0 := by
  induction cache with
  | nil => rfl
  | cons d rest ih =>
    rw [countUsn_cons, if_neg (h d (List.mem_cons_self d rest)), Nat.zero_add]
    exact ih fun x hx => h x (List.mem_cons_of_mem _ hx)

theorem chain_le_getLastD :
    ∀ (l : List Nat) (x : Nat), List.Chain (· ≤ ·) x l →
      x ≤ l.getLastD x ∧ ∀ y ∈ l, y ≤ l.getLastD x := by
  intro l
  induction l with
  | nil => intro x _; exact ⟨Nat.le_refl x, by simp⟩
  | cons b bs ih =>
    intro x h
    cases h with
    | cons hxb hb =>
      obtain ⟨h1, h2⟩ := ih b hb
      rw [List.getLastD_cons]
      refine ⟨Nat.le_trans hxb h1, ?_⟩
      intro y hy
      rcases List.mem_cons.mp hy with rfl | hy
      · exact h1
      · exact h2 y hy

theorem chain_map_t :
    ∀ (a : Ann) (l : List Ann), List.Chain' (fun x y : Ann => x.t ≤ y.t) (a :: l) →
      List.Chain (· ≤ ·) a.t (l.map Ann.t) := by
  intro a l
  induction l generalizing a with
  | nil => intro _; exact List.Chain.nil
  | cons b bs ih =>
    intro h
    rw [List.chain'_cons] at h
    exact List.Chain.cons h.1 (ih b h.2)

theorem processAliveSeq_refresh {ig : Bool} {id : List Char} :
    ∀ (anns : List Ann) (pre : List Device) (d : Device),
      (∀ x ∈ pre, x.usn ≠ id) → d.usn = id →
      processAliveSeq ig id anns (pre ++ [d])
        = pre ++ [{ d with last_seen := (anns.map Ann.t).getLastD d.last_seen }] := by
  intro anns
  induction anns with
  | nil =>
    intro pre d _ _
    simp [processAliveSeq]
  | cons a rest ih =>
    intro pre d hpre hd
    have hfind : find_device_by_usn (pre ++ [d]) id = some d :=
      find_device_append_last hpre hd
    have hstep : updateCache ig a.t a.addr ⟨true, a.loc, a.st, id⟩ (pre ++ [d])
        = pre ++ [{ d with last_seen := a.t }] := by
      rw [updateCache_mk, hfind]
      simp only [if_pos rfl]
      exact refresh_append_last hpre hd
    show processAliveSeq ig id rest
        (updateCache ig a.t a.addr ⟨true, a.loc, a.st, id⟩ (pre ++ [d])) = _
    rw [hstep, ih pre { d with last_seen := a.t } hpre hd]
    rw [List.map_cons, List.getLastD_cons]

/-- C2: starting from a cache without the (non-empty) id, processing one
or more alive announcements for that id with non-decreasing timestamps
appends exactly one record for it; its `last_seen` is the last (hence
greatest) timestamp while its location, service type and source address
all come from the first announcement. -/
theorem keepalive_first_seen_wins (ig : Bool) (cache : List Device) (id : List Char)
    (a0 : Ann) (rest : List Ann)
    (hid : id ≠ [])
    (hcache : ∀ d ∈ cache, d.usn ≠ id)
    (hmono : List.Chain' (fun x y : Ann => x.t ≤ y.t) (a0 :: rest)) :
    processAliveSeq ig id (a0 :: rest) cache
      = cache ++ [⟨(rest.map Ann.t).getLastD a0.t, a0.addr, a0.loc, a0.st, id⟩]
    ∧ countUsn (processAliveSeq ig id (a0 :: rest) cache) id = 1
    ∧ ∀ a ∈ a0 :: rest, a.t ≤ (rest.map Ann.t).getLastD a0.t := by
  have hfind : find_device_by_usn cache id = none := find_device_eq_none hcache
  have hstep1 : updateCache ig a0.t a0.addr ⟨true, a0.loc, a0.st, id⟩ cache
      = cache ++ [⟨a0.t, a0.addr, a0.loc, a0.st, id⟩] := by
    rw [updateCache_mk, hfind]
    rfl
  have hmain : processAliveSeq ig id (a0 :: rest) cache
      = cache ++ [⟨(rest.map Ann.t).getLastD a0.t, a0.addr, a0.loc, a0.st, id⟩] := by
    show processAliveSeq ig id rest
        (updateCache ig a0.t a0.addr ⟨true, a0.loc, a0.st, id⟩ cache) = _
    rw [hstep1,
      processAliveSeq_refresh rest cache ⟨a0.t, a0.addr, a0.loc, a0.st, id⟩ hcache rfl]
  refine ⟨hmain, ?_, ?_⟩
  · rw [hmain, countUsn_append, countUsn_eq_zero hcache, countUsn_cons]
    simp [countUsn]
  · have hchain := chain_map_t a0 rest hmono
    obtain ⟨h1, h2⟩ := chain_le_getLastD (rest.map Ann.t) a0.t hchain
    intro a ha
    rcases List.mem_cons.mp ha with rfl | ha
    · exact h1
    · exact h2 a.t (List.mem_map_of_mem Ann.t ha)

/-- Witness for C2: two keep-alives for id "u" with timestamps 10 then 20
yield one record with `last_seen = 20` and the first announcement's
location, service type and source address. -/
theorem keepalive_first_seen_wins_witness :
    processAliveSeq false (chars "u")
        [⟨chars "L1", chars "S1", 1, 10⟩, ⟨chars "L2", chars "S2", 2, 20⟩] []
      = [⟨20, 1, chars "L1", chars "S1", chars "u"⟩] := by
  have h := keepalive_first_seen_wins false [] (chars "u")
      ⟨chars "L1", chars "S1", 1, 10⟩ [⟨chars "L2", chars "S2", 2, 20⟩]
      (by decide) (by simp) (List.chain'_cons.mpr ⟨by decide, List.chain'_singleton _⟩)
  simpa using h.1

/-! ## C8: the event-loop send queue -/

theorem sendto_send_nil (o : QEntry → Outcome) (w : Nat → Bool) :
    sendto_send o [] w = ([], []) := rfl

theorem sendto_send_cons_skip {o : QEntry → Outcome} {e : QEntry} {w : Nat → Bool}
    (rest : List QEntry) (h : w e.fd = false) :
    sendto_send o (e :: rest) w
      = (e :: (sendto_send o rest w).1, (sendto_send o rest w).2) := by
  simp [sendto_send, h]

theorem sendto_send_cons_kept {o : QEntry → Outcome} {e : QEntry} {w : Nat → Bool}
    (rest : List QEntry) (h : w e.fd = true) (hk : attemptKept o e = true) :
    sendto_send o (e :: rest) w
      = (e :: (sendto_send o rest (fun f => if f == e.fd then false else w f)).1,
         (sendto_send o rest (fun f => if f == e.fd then false else w f)).2) := by
  simp [sendto_send, h, hk]

theorem sendto_send_cons_sent {o : QEntry → Outcome} {e : QEntry} {w : Nat → Bool}
    (rest : List QEntry) (h : w e.fd = true) (hk : attemptKept o e = false)
    (hs : attemptSent o e = true) :
    sendto_send o (e :: rest) w
      = ((sendto_send o rest w).1, e :: (sendto_send o rest w).2) := by
  simp [sendto_send, h, hk, hs]

theorem sendto_send_cons_drop {o : QEntry → Outcome} {e : QEntry} {w : Nat → Bool}
    (rest : List QEntry) (h : w e.fd = true) (hk : attemptKept o e = false)
    (hs : attemptSent o e = false) :
    sendto_send o (e :: rest) w = sendto_send o rest w := by
  simp [sendto_send, h, hk, hs]

theorem countTag_cons (e : QEntry) (l : List QEntry) (t : Nat) :
    countTag (e :: l) t = (if e.tag = t then 1 else 0) + countTag l t := by
  by_cases h : e.tag = t
  · simp [countTag, List.filter, h]
    omega
  · simp [countTag, List.filter, h]

theorem countTag_append (x y : List QEntry) (t : Nat) :
    countTag (x ++ y) t = countTag x t + countTag y t := by
  simp [countTag, List.filter_append]

theorem sendto_send_sublist (o : QEntry → Outcome) :
    ∀ (q : List QEntry) (w : Nat → Bool), (sendto_send o q w).1.Sublist q := by
  intro q
  induction q with
  | nil => intro w; exact List.Sublist.refl []
  | cons e rest ih =>
    intro w
    by_cases hw : w e.fd
    · by_cases hk : attemptKept o e
      · rw [sendto_send_cons_kept rest hw hk]
        exact List.Sublist.cons₂ e (ih _)
      · by_cases hs : attemptSent o e
        · rw [sendto_send_cons_sent rest hw (by simpa using hk) hs]
          exact List.Sublist.cons e (ih w)
        · rw [sendto_send_cons_drop rest hw (by simpa using hk) (by simpa using hs)]
          exact List.Sublist.cons e (ih w)
    · rw [sendto_send_cons_skip rest (by simpa using hw)]
      exact List.Sublist.cons₂ e (ih w)

theorem sendto_send_countTag (o : QEntry → Outcome) :
    ∀ (q : List QEntry) (w : Nat → Bool) (t : Nat),
      countTag (sendto_send o q w).1 t + countTag (sendto_send o q w).2 t
        ≤ countTag q t := by
  intro q
  induction q with
  | nil => intro w t; simp [sendto_send_nil, countTag]
  | cons e rest ih =>
    intro w t
    by_cases hw : w e.fd
    · by_cases hk : attemptKept o e
      · rw [sendto_send_cons_kept rest hw hk]
        dsimp only
        have h := ih (fun f => if f == e.fd then false else w f) t
        rw [countTag_cons, countTag_cons]
        omega
      · by_cases hs : attemptSent o e
        · rw [sendto_send_cons_sent rest hw (by simpa using hk) hs]
          dsimp only
          have h := ih w t
          rw [countTag_cons, countTag_cons]
          omega
        · rw [sendto_send_cons_drop rest hw (by simpa using hk) (by simpa using hs)]
          have h := ih w t
          rw [countTag_cons]
          omega
    · rw [sendto_send_cons_skip rest (by simpa using hw)]
      dsimp only
      have h := ih w t
      rw [countTag_cons, countTag_cons]
      omega

theorem drainPasses_countTag :
    ∀ (ps : List ((QEntry → Outcome) × (Nat → Bool))) (q : List QEntry) (t : Nat),
      countTag (drainPasses ps q).1 t + countTag (drainPasses ps q).2 t
        ≤ countTag q t := by
  intro ps
  induction ps with
  | nil => intro q t; simp [drainPasses, countTag]
  | cons s ps ih =>
    intro q t
    have h1 := sendto_send_countTag s.1 q s.2 t
    have h2 := ih (sendto_send s.1 q s.2).1 t
    show countTag (drainPasses ps (sendto_send s.1 q s.2).1).1 t
        + countTag ((sendto_send s.1 q s.2).2 ++ (drainPasses ps (sendto_send s.1 q s.2).1).2) t
      ≤ countTag q t
    rw [countTag_append]
    omega

theorem sendto_send_all_unwritable (o : QEntry → Outcome) :
    ∀ (q : List QEntry) (w : Nat → Bool), (∀ e ∈ q, w e.fd = false) →
      sendto_send o q w = (q, []) := by
  intro q
  induction q with
  | nil => intro w _; rfl
  | cons e rest ih =>
    intro w h
    rw [sendto_send_cons_skip rest (h e (List.mem_cons_self e rest)),
      ih w (fun x hx => h x (List.mem_cons_of_mem _ hx))]

/-- C8: each drain pass of the send queue preserves the order of kept
entries without duplicating any (per-tag conservation); a would-block on
a writable socket keeps the entry at the head and, via `FD_CLR`, prevents
every entry behind it on the same socket from being attempted in that
pass; a `setsockopt` failure or a non-transient `sendto` failure removes
exactly that entry and processing advances; and over any sequence of
passes an entry present once is transmitted at most once. -/
theorem send_queue_discipline (o : QEntry → Outcome) (q rest : List QEntry)
    (w : Nat → Bool) (e : QEntry)
    (ps : List ((QEntry → Outcome) × (Nat → Bool))) (t : Nat) :
    (sendto_send o q w).1.Sublist q
    ∧ countTag (sendto_send o q w).1 t + countTag (sendto_send o q w).2 t
        ≤ countTag q t
    ∧ (w e.fd = true → (e.mcastSet = false ∨ (o e).sockoptOk = true) →
        (o e).send = SendRes.wouldBlock → (∀ x ∈ rest, x.fd = e.fd) →
        sendto_send o (e :: rest) w = (e :: rest, []))
    ∧ (w e.fd = true →
        ((e.mcastSet = true ∧ (o e).sockoptOk = false) ∨ (o e).send = SendRes.failed) →
        sendto_send o (e :: rest) w = sendto_send o rest w)
    ∧ (countTag q t ≤ 1 → countTag (drainPasses ps q).2 t ≤ 1) := by
  refine ⟨sendto_send_sublist o q w, sendto_send_countTag o q w t, ?_, ?_, ?_⟩
  · intro hw hso hwb hrest
    have hk : attemptKept o e = true := by
      rcases hso with hm | hok
      · simp [attemptKept, hm, hwb]
      · simp [attemptKept, hok, hwb]
    rw [sendto_send_cons_kept rest hw hk,
      sendto_send_all_unwritable o rest _ (fun x hx => by simp [hrest x hx])]
  · intro hw hfail
    have hk : attemptKept o e = false := by
      rcases hfail with ⟨hm, hok⟩ | hsend
      · simp [attemptKept, hm, hok]
      · simp [attemptKept, hsend]
    have hs : attemptSent o e = false := by
      rcases hfail with ⟨hm, hok⟩ | hsend
      · simp [attemptSent, hm, hok]
      · simp [attemptSent, hsend]
    exact sendto_send_cons_drop rest hw hk hs
  · intro hq
    have h := drainPasses_countTag ps q t
    omega

/-- Witness for C8: three same-socket entries; in a pass where the head
would-block, the queue survives untouched and nothing is transmitted, and
over a would-block pass followed by a successful pass no tag is
transmitted twice. -/
theorem send_queue_discipline_witness :
    sendto_send (fun _ => ⟨true, SendRes.wouldBlock⟩)
        [⟨5, false, 10, [], 1⟩, ⟨5, false, 11, [], 2⟩, ⟨5, false, 12, [], 3⟩]
        (fun _ => true)
      = ([⟨5, false, 10, [], 1⟩, ⟨5, false, 11, [], 2⟩, ⟨5, false, 12, [], 3⟩], [])
    ∧ countTag (drainPasses
        [(fun _ => ⟨true, SendRes.wouldBlock⟩, fun _ => true),
         (fun _ => ⟨true, SendRes.sent⟩, fun _ => true)]
        [⟨5, false, 10, [], 1⟩, ⟨5, false, 11, [], 2⟩, ⟨5, false, 12, [], 3⟩]).2 1
      ≤ 1 := by
  constructor
  · exact (send_queue_discipline (fun _ => ⟨true, SendRes.wouldBlock⟩)
      [] [⟨5, false, 11, [], 2⟩, ⟨5, false, 12, [], 3⟩] (fun _ => true)
      ⟨5, false, 10, [], 1⟩ [] 0).2.2.1
      rfl (Or.inl rfl) rfl (by decide)
  · exact (send_queue_discipline (fun _ => ⟨true, SendRes.wouldBlock⟩)
      [⟨5, false, 10, [], 1⟩, ⟨5, false, 11, [], 2⟩, ⟨5, false, 12, [], 3⟩] []
      (fun _ => true) ⟨5, false, 10, [], 1⟩
      [(fun _ => ⟨true, SendRes.wouldBlock⟩, fun _ => true),
       (fun _ => ⟨true, SendRes.sent⟩, fun _ => true)] 1).2.2.2.2
      (by decide)

/-! ## C6: header lookup anchoring -/

/-- C6 counterexample: in `cexNtsBuf` the text `NTS: ssdp:byebye` occurs
only inside the value of the `X-A` header - no line of the datagram
starts with an `NTS` header - yet the parser classifies the (NOTIFY)
datagram as a departure notice, because the liveness lookup uses a bare
`strcasestr` with no line anchor. -/
theorem header_anchoring_counterexample :
    (parse_notify_message cexNtsBuf).is_alive = false
    ∧ classify cexNtsBuf = MsgClass.notify
    ∧ ((linesOf cexNtsBuf).all (fun l => !(isPrefixCI (chars "nts") l))) = true := by
  refine ⟨by decide, by decide, by decide⟩

/-- C6 amended: the LOCATION, NT, USN and ST lookups are case-insensitive
and match only the full header name at the start of a line followed by
`: ` (a successful lookup exhibits a line beginning with the header name
and colon); the NTS liveness determination is case-insensitive but NOT
anchored - it fires on an occurrence of `NTS: ssdp:` anywhere in the
datagram, even inside another header's value. -/
theorem header_lookup_anchoring (buf : List Char) (p q r s : Nat) :
    (strcasestrIdx buf patLoc = some p →
      ∃ l ∈ linesOf buf, isPrefixCI (chars "location: ") l = true)
    ∧ (strcasestrIdx buf patNt = some q →
      ∃ l ∈ linesOf buf, isPrefixCI (chars "nt: ") l = true)
    ∧ (strcasestrIdx buf patUsn = some r →
      ∃ l ∈ linesOf buf, isPrefixCI (chars "usn: ") l = true)
    ∧ (strcasestrIdx buf patSt = some s →
      ∃ l ∈ linesOf buf, isPrefixCI (chars "ST: ") l = true)
    ∧ (isByebye buf = true →
      ∃ j, isPrefixCI patNts (buf.drop j) = true
        ∧ isPrefixCS (chars "byebye") (buf.drop (j + 10)) = true) := by
  refine ⟨?_, ?_, ?_, ?_, ?_⟩
  · intro h
    exact found_on_line (by decide) h
  · intro h
    exact found_on_line (by decide) h
  · intro h
    exact found_on_line (by decide) h
  · intro h
    exact found_on_line (by decide) h
  · intro h
    unfold isByebye at h
    cases hidx : strcasestrIdx buf patNts with
    | none => rw [hidx] at h; simp at h
    | some j =>
      rw [hidx] at h
      exact ⟨j, strIdx_isPrefix buf patNts j hidx, h⟩

/-- Witness for C6 (amended): the LOCATION lookup on the example NOTIFY
datagram exhibits a line starting with `LOCATION: `, and the unanchored
NTS determination fires on `cexNtsBuf`. -/
theorem header_lookup_anchoring_witness :
    (∃ l ∈ linesOf cexNoUsnBuf, isPrefixCI (chars "location: ") l = true)
    ∧ ∃ j, isPrefixCI patNts (cexNtsBuf.drop j) = true
        ∧ isPrefixCS (chars "byebye") (cexNtsBuf.drop (j + 10)) = true := by
  constructor
  · exact (header_lookup_anchoring cexNoUsnBuf 18 0 0 0).1 (by decide)
  · exact (header_lookup_anchoring cexNtsBuf 0 0 0 0).2.2.2.2 (by decide)

/-! ## C7: response formatting round-trip -/

theorem strIdx_append_found {x suffix pat : List Char}
    (hx : segBlocks pat x = true) (hs : isPrefixCI pat suffix = true) :
    strcasestrIdx (x ++ suffix) pat = some x.length := by
  rw [segBlocks_skip x suffix hx, strIdx_of_isPrefix hs]
  simp

theorem strIdx_append_none {x suffix pat : List Char}
    (hx : segBlocks pat x = true) (hs : strcasestrIdx suffix pat = none) :
    strcasestrIdx (x ++ suffix) pat = none := by
  rw [segBlocks_skip x suffix hx, hs]
  rfl

theorem lowerNat_ne_nl {c : Char} (h : c ≠ '\n') : lowerNat c ≠ 10 := by
  intro h10
  apply h
  apply char_eq_of_toNat
  have hc := lowerNat_eq_of_lt h10 (by omega)
  rw [hc]
  decide

theorem segBlocks_lf_free {ps v : List Char} (h : ∀ c ∈ v, c ≠ '\n') :
    segBlocks ('\n' :: ps) v = true := by
  apply segBlocks_of_head_ne
  intro c hc
  rw [show lowerNat '\n' = 10 from by decide]
  exact lowerNat_ne_nl (h c hc)

theorem segBlocks_lf_free' {pat v : List Char} (hp : ∃ ps, pat = '\n' :: ps)
    (h : ∀ c ∈ v, c ≠ '\n') : segBlocks pat v = true := by
  obtain ⟨ps, rfl⟩ := hp
  exact segBlocks_lf_free h

theorem truncAt_some (buf : List Char) (p : Nat) :
    truncAt buf (some p)
      = match strchrFrom buf p '\r' with
        | some j => buf.set j nulChar
        | none => buf := rfl

/-- Truncating at a header-value offset: the value `v` is CR-free and
NUL-free and the byte right after it is the `'\r'` that gets overwritten. -/
theorem trunc_mid {X v w buf : List Char} {p : Nat}
    (hbuf : buf = X ++ (v ++ ('\r' :: w)))
    (hlen : p = X.length)
    (hv : ∀ c ∈ v, c ≠ '\r' ∧ c ≠ nulChar) :
    truncAt buf (some p) = X ++ (v ++ (nulChar :: w)) := by
  subst hbuf
  subst hlen
  have hfind : strchrFrom (X ++ (v ++ '\r' :: w)) X.length '\r'
      = some (v.length + X.length) := by
    unfold strchrFrom
    rw [drop_append_left, cstrFind_append v w hv]
    rfl
  rw [truncAt_some, hfind]
  have h1 : v.length + X.length = X.length + (v.length + 0) := by omega
  rw [h1]
  show (X ++ (v ++ '\r' :: w)).set (X.length + (v.length + 0)) nulChar
      = X ++ (v ++ nulChar :: w)
  rw [set_append_right, set_append_right]
  rfl

/-- Reading a header value out of the truncated buffer: the value `v` is
NUL-free and immediately followed by the written NUL. -/
theorem valueAt_mid {X v w buf : List Char} {p : Nat}
    (hbuf : buf = X ++ (v ++ (nulChar :: w)))
    (hlen : p = X.length)
    (hv : ∀ c ∈ v, c ≠ nulChar) :
    valueAt buf (some p) = v := by
  subst hbuf
  subst hlen
  unfold valueAt
  show List.takeWhile (fun c => c != nulChar)
      (List.drop X.length (X ++ (v ++ nulChar :: w))) = v
  rw [drop_append_left]
  exact takeWhile_append_stop _ v nulChar w (fun y hy => by simp [hv y hy]) (by simp)

theorem isPrefixCS_cons_false {c b : Char} {cs bs : List Char} (h : c ≠ b) :
    isPrefixCS (c :: cs) (b :: bs) = false := by
  simp [isPrefixCS, h]

theorem format_response_decomp (d : Device) :
    format_response d
      = fmtA0 ++ (fmtAL ++ (d.location
          ++ (fmtC1 ++ (d.st ++ (fmtC2 ++ (d.usn ++ fmtC3)))))) := by
  unfold format_response
  rw [show chars "HTTP/1.1 200 OK\r\nLOCATION: " = fmtA0 ++ fmtAL from by decide]
  rw [show chars "\r\nSERVER: UPnP Cache\r\nCACHE-CONTROL: max-age=1800\r\nEXT:\r\nST: "
      = fmtC1 from rfl]
  rw [show chars "\r\nUSN: " = fmtC2 from rfl, show chars "\r\n\r\n" = fmtC3 from rfl]
  simp [List.append_assoc]

theorem strIdx_loc_fmt (d : Device) :
    strcasestrIdx (format_response d) patLoc = some 16 := by
  rw [format_response_decomp]
  rw [show (16 : Nat) = fmtA0.length from by decide]
  exact strIdx_append_found (by decide) (isPrefixCI_append _ (by decide))

theorem strIdx_nt_fmt (d : Device)
    (hloc : ∀ c ∈ d.location, c ≠ '\n') (hst : ∀ c ∈ d.st, c ≠ '\n')
    (husn : ∀ c ∈ d.usn, c ≠ '\n') :
    strcasestrIdx (format_response d) patNt = none := by
  rw [format_response_decomp]
  apply strIdx_append_none (by decide)
  apply strIdx_append_none (by decide)
  apply strIdx_append_none (segBlocks_lf_free' ⟨chars "nt: ", by decide⟩ hloc)
  apply strIdx_append_none (by decide)
  apply strIdx_append_none (segBlocks_lf_free' ⟨chars "nt: ", by decide⟩ hst)
  apply strIdx_append_none (by decide)
  apply strIdx_append_none (segBlocks_lf_free' ⟨chars "nt: ", by decide⟩ husn)
  decide

theorem strIdx_st_fmt (d : Device)
    (hloc : ∀ c ∈ d.location, c ≠ '\n') :
    strcasestrIdx (format_response d) patSt = some (83 + d.location.length) := by
  have hdec : format_response d
      = fmtA0 ++ (fmtAL ++ (d.location
          ++ (chars "\r\nSERVER: UPnP Cache\r\nCACHE-CONTROL: max-age=1800\r\nEXT:\r"
             ++ (patSt ++ (d.st ++ (fmtC2 ++ (d.usn ++ fmtC3))))))) := by
    rw [format_response_decomp]
    rw [show fmtC1
        = chars "\r\nSERVER: UPnP Cache\r\nCACHE-CONTROL: max-age=1800\r\nEXT:\r" ++ patSt
        from by decide]
    simp [List.append_assoc]
  rw [hdec]
  rw [segBlocks_skip _ _ (by decide : segBlocks patSt fmtA0 = true)]
  rw [segBlocks_skip _ _ (by decide : segBlocks patSt fmtAL = true)]
  rw [segBlocks_skip _ _ (segBlocks_lf_free' ⟨chars "ST: ", by decide⟩ hloc)]
  rw [segBlocks_skip _ _ (by decide : segBlocks patSt
      (chars "\r\nSERVER: UPnP Cache\r\nCACHE-CONTROL: max-age=1800\r\nEXT:\r") = true)]
  rw [strIdx_of_isPrefix (isPrefixCI_append _ (by decide : isPrefixCI patSt patSt = true))]
  simp only [Option.map_some']
  exact congrArg some (by
    rw [show (chars "\r\nSERVER: UPnP Cache\r\nCACHE-CONTROL: max-age=1800\r\nEXT:\r").length
          = 56 from by decide,
        show fmtAL.length = 11 from by decide, show fmtA0.length = 16 from by decide]
    omega)

theorem strIdx_usn_fmt (d : Device)
    (hloc : ∀ c ∈ d.location, c ≠ '\n') (hst : ∀ c ∈ d.st, c ≠ '\n') :
    strcasestrIdx (format_response d) patUsn
      = some (89 + d.location.length + d.st.length) := by
  have hdec : format_response d
      = fmtA0 ++ (fmtAL ++ (d.location ++ (fmtC1 ++ (d.st
          ++ (['\r'] ++ (chars "\nUSN: " ++ (d.usn ++ fmtC3))))))) := by
    rw [format_response_decomp]
    rw [show fmtC2 = ['\r'] ++ chars "\nUSN: " from by decide]
    simp [List.append_assoc]
  rw [hdec]
  rw [segBlocks_skip _ _ (by decide : segBlocks patUsn fmtA0 = true)]
  rw [segBlocks_skip _ _ (by decide : segBlocks patUsn fmtAL = true)]
  rw [segBlocks_skip _ _ (segBlocks_lf_free' ⟨chars "usn: ", by decide⟩ hloc)]
  rw [segBlocks_skip _ _ (by decide : segBlocks patUsn fmtC1 = true)]
  rw [segBlocks_skip _ _ (segBlocks_lf_free' ⟨chars "usn: ", by decide⟩ hst)]
  rw [segBlocks_skip _ _ (by decide : segBlocks patUsn ['\r'] = true)]
  rw [strIdx_of_isPrefix
    (isPrefixCI_append _ (by decide : isPrefixCI patUsn (chars "\nUSN: ") = true))]
  simp only [Option.map_some']
  exact congrArg some (by
    rw [show fmtA0.length = 16 from by decide, show fmtAL.length = 11 from by decide,
        show fmtC1.length = 61 from by decide,
        show (['\r'] : List Char).length = 1 from by decide]
    omega)

theorem headerPosLoc_fmt (d : Device) :
    headerPosLoc (format_response d) = some 27 := by
  unfold headerPosLoc
  rw [strIdx_loc_fmt]
  simp only [Option.map_some']
  decide

theorem headerPosSt_fmt (d : Device)
    (hloc : ∀ c ∈ d.location, c ≠ '\n') (hst : ∀ c ∈ d.st, c ≠ '\n')
    (husn : ∀ c ∈ d.usn, c ≠ '\n') :
    headerPosSt (format_response d) = some (88 + d.location.length) := by
  unfold headerPosSt
  rw [strIdx_nt_fmt d hloc hst husn, strIdx_st_fmt d hloc]
  show (some (83 + d.location.length)).map (· + patSt.length)
      = some (88 + d.location.length)
  simp only [Option.map_some']
  exact congrArg some (by rw [show patSt.length = 5 from by decide]; omega)

theorem headerPosUsn_fmt (d : Device)
    (hloc : ∀ c ∈ d.location, c ≠ '\n') (hst : ∀ c ∈ d.st, c ≠ '\n') :
    headerPosUsn (format_response d)
      = some (95 + d.location.length + d.st.length) := by
  unfold headerPosUsn
  rw [strIdx_usn_fmt d hloc hst]
  simp only [Option.map_some']
  exact congrArg some (by rw [show patUsn.length = 6 from by decide]; omega)

theorem classify_fmt (d : Device) :
    classify (format_response d) = MsgClass.notify := by
  have h1 : isPrefixCS (chars "NOTIFY ") (format_response d) = false := by
    rw [format_response_decomp,
      show fmtA0 = 'H' :: chars "TTP/1.1 200 OK\r" from by decide, List.cons_append,
      show chars "NOTIFY " = 'N' :: chars "OTIFY " from by decide]
    exact isPrefixCS_cons_false (by decide)
  have h2 : isPrefixCS (chars "HTTP/1.1 200") (format_response d) = true := by
    rw [format_response_decomp]
    exact isPrefixCS_append _ (by decide)
  simp [classify, h1, h2]

/-- C7: serialising a cached record whose fields are free of CR, LF and
NUL bytes and whose formatted length fits the 2048-byte output buffer,
then re-parsing the datagram, recovers the same location, service type
and id, and the datagram is dispatched as an announcement/active
response. -/
theorem response_roundtrip (d : Device)
    (hloc : ∀ c ∈ d.location, c ≠ '\r' ∧ c ≠ '\n' ∧ c ≠ nulChar)
    (hst : ∀ c ∈ d.st, c ≠ '\r' ∧ c ≠ '\n' ∧ c ≠ nulChar)
    (husn : ∀ c ∈ d.usn, c ≠ '\r' ∧ c ≠ '\n' ∧ c ≠ nulChar)
    (hfit : (format_response d).length < 2048) :
    classify (format_response d) = MsgClass.notify
    ∧ (parse_notify_message (format_response d)).location = d.location
    ∧ (parse_notify_message (format_response d)).st = d.st
    ∧ (parse_notify_message (format_response d)).usn = d.usn := by
  clear hfit
  have hPosL : headerPosLoc (format_response d) = some 27 := headerPosLoc_fmt d
  have hPosS : headerPosSt (format_response d) = some (88 + d.location.length) :=
    headerPosSt_fmt d (fun c hc => (hloc c hc).2.1) (fun c hc => (hst c hc).2.1)
      (fun c hc => (husn c hc).2.1)
  have hPosU : headerPosUsn (format_response d)
      = some (95 + d.location.length + d.st.length) :=
    headerPosUsn_fmt d (fun c hc => (hloc c hc).2.1) (fun c hc => (hst c hc).2.1)
  -- first truncation: the '\r' after the location value becomes NUL
  have hb1 : truncAt (format_response d) (some 27)
      = (fmtA0 ++ fmtAL) ++ (d.location ++ (nulChar ::
          (chars "\nSERVER: UPnP Cache\r\nCACHE-CONTROL: max-age=1800\r\nEXT:\r\nST: "
           ++ (d.st ++ (fmtC2 ++ (d.usn ++ fmtC3)))))) := by
    apply trunc_mid (v := d.location)
    · rw [format_response_decomp,
        show fmtC1 = '\r' ::
          chars "\nSERVER: UPnP Cache\r\nCACHE-CONTROL: max-age=1800\r\nEXT:\r\nST: "
          from by decide]
      simp [List.append_assoc]
    · decide
    · exact fun c hc => ⟨(hloc c hc).1, (hloc c hc).2.2⟩
  -- regroup for the second truncation
  have hre1 : (fmtA0 ++ fmtAL) ++ (d.location ++ (nulChar ::
        (chars "\nSERVER: UPnP Cache\r\nCACHE-CONTROL: max-age=1800\r\nEXT:\r\nST: "
         ++ (d.st ++ (fmtC2 ++ (d.usn ++ fmtC3))))))
      = ((fmtA0 ++ fmtAL) ++ (d.location ++ (nulChar ::
          chars "\nSERVER: UPnP Cache\r\nCACHE-CONTROL: max-age=1800\r\nEXT:\r\nST: ")))
        ++ (d.st ++ ('\r' :: (chars "\nUSN: " ++ (d.usn ++ fmtC3)))) := by
    rw [show fmtC2 = '\r' :: chars "\nUSN: " from by decide]
    simp [List.append_assoc]
  have hlen2 : 88 + d.location.length
      = (((fmtA0 ++ fmtAL) ++ (d.location ++ (nulChar ::
          chars "\nSERVER: UPnP Cache\r\nCACHE-CONTROL: max-age=1800\r\nEXT:\r\nST: ")))).length := by
    simp only [List.length_append, List.length_cons]
    rw [show fmtA0.length = 16 from by decide, show fmtAL.length = 11 from by decide,
      show (chars "\nSERVER: UPnP Cache\r\nCACHE-CONTROL: max-age=1800\r\nEXT:\r\nST: ").length
        = 60 from by decide]
    omega
  have hb2 : truncAt (((fmtA0 ++ fmtAL) ++ (d.location ++ (nulChar ::
        chars "\nSERVER: UPnP Cache\r\nCACHE-CONTROL: max-age=1800\r\nEXT:\r\nST: ")))
        ++ (d.st ++ ('\r' :: (chars "\nUSN: " ++ (d.usn ++ fmtC3)))))
        (some (88 + d.location.length))
      = (((fmtA0 ++ fmtAL) ++ (d.location ++ (nulChar ::
          chars "\nSERVER: UPnP Cache\r\nCACHE-CONTROL: max-age=1800\r\nEXT:\r\nST: ")))
        ++ (d.st ++ (nulChar :: (chars "\nUSN: " ++ (d.usn ++ fmtC3))))) :=
    trunc_mid rfl hlen2 (fun c hc => ⟨(hst c hc).1, (hst c hc).2.2⟩)
  -- regroup for the third truncation
  have hre2 : (((fmtA0 ++ fmtAL) ++ (d.location ++ (nulChar ::
        chars "\nSERVER: UPnP Cache\r\nCACHE-CONTROL: max-age=1800\r\nEXT:\r\nST: ")))
        ++ (d.st ++ (nulChar :: (chars "\nUSN: " ++ (d.usn ++ fmtC3)))))
      = ((((fmtA0 ++ fmtAL) ++ (d.location ++ (nulChar ::
          chars "\nSERVER: UPnP Cache\r\nCACHE-CONTROL: max-age=1800\r\nEXT:\r\nST: ")))
          ++ (d.st ++ (nulChar :: chars "\nUSN: ")))
        ++ (d.usn ++ ('\r' :: chars "\n\r\n"))) := by
    rw [show fmtC3 = '\r' :: chars "\n\r\n" from by decide]
    simp [List.append_assoc]
  have hlen3 : 95 + d.location.length + d.st.length
      = ((((fmtA0 ++ fmtAL) ++ (d.location ++ (nulChar ::
          chars "\nSERVER: UPnP Cache\r\nCACHE-CONTROL: max-age=1800\r\nEXT:\r\nST: ")))
          ++ (d.st ++ (nulChar :: chars "\nUSN: ")))).length := by
    simp only [List.length_append, List.length_cons]
    rw [show fmtA0.length = 16 from by decide, show fmtAL.length = 11 from by decide,
      show (chars "\nSERVER: UPnP Cache\r\nCACHE-CONTROL: max-age=1800\r\nEXT:\r\nST: ").length
        = 60 from by decide,
      show (chars "\nUSN: ").length = 6 from by decide]
    omega
  have hb3 : truncAt ((((fmtA0 ++ fmtAL) ++ (d.location ++ (nulChar ::
        chars "\nSERVER: UPnP Cache\r\nCACHE-CONTROL: max-age=1800\r\nEXT:\r\nST: ")))
        ++ (d.st ++ (nulChar :: chars "\nUSN: ")))
        ++ (d.usn ++ ('\r' :: chars "\n\r\n")))
        (some (95 + d.location.length + d.st.length))
      = ((((fmtA0 ++ fmtAL) ++ (d.location ++ (nulChar ::
          chars "\nSERVER: UPnP Cache\r\nCACHE-CONTROL: max-age=1800\r\nEXT:\r\nST: ")))
          ++ (d.st ++ (nulChar :: chars "\nUSN: ")))
        ++ (d.usn ++ (nulChar :: chars "\n\r\n"))) :=
    trunc_mid rfl hlen3 (fun c hc => ⟨(husn c hc).1, (husn c hc).2.2⟩)
  -- the three header values read from the final buffer
  have hvU : valueAt ((((fmtA0 ++ fmtAL) ++ (d.location ++ (nulChar ::
        chars "\nSERVER: UPnP Cache\r\nCACHE-CONTROL: max-age=1800\r\nEXT:\r\nST: ")))
        ++ (d.st ++ (nulChar :: chars "\nUSN: ")))
        ++ (d.usn ++ (nulChar :: chars "\n\r\n")))
        (some (95 + d.location.length + d.st.length)) = d.usn :=
    valueAt_mid rfl hlen3 (fun c hc => (husn c hc).2.2)
  have hreS : ((((fmtA0 ++ fmtAL) ++ (d.location ++ (nulChar ::
        chars "\nSERVER: UPnP Cache\r\nCACHE-CONTROL: max-age=1800\r\nEXT:\r\nST: ")))
        ++ (d.st ++ (nulChar :: chars "\nUSN: ")))
        ++ (d.usn ++ (nulChar :: chars "\n\r\n")))
      = (((fmtA0 ++ fmtAL) ++ (d.location ++ (nulChar ::
          chars "\nSERVER: UPnP Cache\r\nCACHE-CONTROL: max-age=1800\r\nEXT:\r\nST: ")))
        ++ (d.st ++ (nulChar :: (chars "\nUSN: "
            ++ (d.usn ++ (nulChar :: chars "\n\r\n")))))) := by
    simp [List.append_assoc]
  have hvS : valueAt (((fmtA0 ++ fmtAL) ++ (d.location ++ (nulChar ::
        chars "\nSERVER: UPnP Cache\r\nCACHE-CONTROL: max-age=1800\r\nEXT:\r\nST: ")))
        ++ (d.st ++ (nulChar :: (chars "\nUSN: "
            ++ (d.usn ++ (nulChar :: chars "\n\r\n"))))))
        (some (88 + d.location.length)) = d.st :=
    valueAt_mid rfl hlen2 (fun c hc => (hst c hc).2.2)
  have hreL : (((fmtA0 ++ fmtAL) ++ (d.location ++ (nulChar ::
        chars "\nSERVER: UPnP Cache\r\nCACHE-CONTROL: max-age=1800\r\nEXT:\r\nST: ")))
        ++ (d.st ++ (nulChar :: (chars "\nUSN: "
            ++ (d.usn ++ (nulChar :: chars "\n\r\n"))))))
      = ((fmtA0 ++ fmtAL) ++ (d.location ++ (nulChar ::
          (chars "\nSERVER: UPnP Cache\r\nCACHE-CONTROL: max-age=1800\r\nEXT:\r\nST: "
           ++ (d.st ++ (nulChar :: (chars "\nUSN: "
              ++ (d.usn ++ (nulChar :: chars "\n\r\n"))))))))) := by
    simp [List.append_assoc]
  have hvL : valueAt ((fmtA0 ++ fmtAL) ++ (d.location ++ (nulChar ::
        (chars "\nSERVER: UPnP Cache\r\nCACHE-CONTROL: max-age=1800\r\nEXT:\r\nST: "
         ++ (d.st ++ (nulChar :: (chars "\nUSN: "
            ++ (d.usn ++ (nulChar :: chars "\n\r\n")))))))))
        (some 27) = d.location :=
    valueAt_mid rfl (by decide) (fun c hc => (hloc c hc).2.2)
  refine ⟨classify_fmt d, ?_, ?_, ?_⟩
  · simp only [parse_notify_message]
    rw [hPosL, hPosS, hPosU, hb1, hre1, hb2, hre2, hb3, hreS, hreL]
    exact hvL
  · simp only [parse_notify_message]
    rw [hPosL, hPosS, hPosU, hb1, hre1, hb2, hre2, hb3, hreS]
    exact hvS
  · simp only [parse_notify_message]
    rw [hPosL, hPosS, hPosU, hb1, hre1, hb2, hre2, hb3]
    exact hvU

/-- Witness for C7: a concrete record round-trips through formatting and
parsing, and the formatted datagram is dispatched to the parser. -/
theorem response_roundtrip_witness :
    classify (format_response ⟨0, 7, chars "http://x/", chars "urn:svc", chars "uuid:1"⟩)
        = MsgClass.notify
    ∧ (parse_notify_message
        (format_response ⟨0, 7, chars "http://x/", chars "urn:svc", chars "uuid:1"⟩)).usn
        = chars "uuid:1" := by
  have h := response_roundtrip ⟨0, 7, chars "http://x/", chars "urn:svc", chars "uuid:1"⟩
    (by decide) (by decide) (by decide) (by decide)
  exact ⟨h.1, h.2.2.2⟩
